import Mathlib

/-!
Verification of the Westgard rule-evaluation engine of the QC chart
application (`src/QC_app.py`).

The engine is `apply_westgard_rules(series, mean, std_dev)` (lines 81-133):
given a numeric series, a center (`mean`) and a dispersion (`std_dev`), it
returns a `defaultdict(list)` mapping rule identifiers to lists of series
indices violating that rule.  The series reaching the engine is
`qc_data[selected_parameter]`, a pandas Series with the default positional
RangeIndex `0..n-1`, so we embed a series as a `List ℚ` and an index as its
position.  The `defaultdict` is embedded as an insertion-ordered association
list `List (String × List Nat)`: the key `'1-3s'` is always assigned
(line 94), while the other five keys are created by `extend` only when the
rule fires at least once (lines 96-127).  The final dedup step
`sorted(list(set(...)))` (lines 129-131) is embedded as insertion sort of
the deduplicated list.
-/

namespace QCApp

/-- A data series: values at positions `0..n-1` (pandas default RangeIndex). -/
abbrev Series := List ℚ

/-- Value access: `sVal series i` is `series.iloc[i]` (equivalently
`series[i]` with the default RangeIndex).  All accesses made by the engine
are in range, so the default value is irrelevant. -/
def sVal (series : Series) (i : Nat) : ℚ := series.getD i 0

/-- Line 94: `series[(series > s_p3) | (series < s_m3)].index.tolist()` —
indices whose value is strictly outside `mean ± 3·std_dev`. -/
def rule13_raw (series : Series) (mean std_dev : ℚ) : List Nat :=
  (List.range series.length).filter fun i =>
    decide (sVal series i > mean + 3 * std_dev ∨ sVal series i < mean - 3 * std_dev)

/-- Lines 97-100: for `i in range(1, len(series))`, if points `i` and `i-1`
are both strictly above `+2s` or both strictly below `-2s`, extend with
`[i-1, i]`. -/
def rule22_raw (series : Series) (mean std_dev : ℚ) : List Nat :=
  (List.range' 1 (series.length - 1)).flatMap fun i =>
    if (sVal series i > mean + 2 * std_dev ∧ sVal series (i-1) > mean + 2 * std_dev)
       ∨ (sVal series i < mean - 2 * std_dev ∧ sVal series (i-1) < mean - 2 * std_dev)
    then [i-1, i] else []

/-- Lines 103-105: for `i in range(1, len(series))`, if
`abs(series.iloc[i] - series.iloc[i-1]) > 4 * std_dev`, extend with
`[i-1, i]`. -/
def ruleR4_raw (series : Series) (mean std_dev : ℚ) : List Nat :=
  (List.range' 1 (series.length - 1)).flatMap fun i =>
    if |sVal series i - sVal series (i-1)| > 4 * std_dev
    then [i-1, i] else []

/-- Lines 108-111: for `i in range(3, len(series))`, window
`series.iloc[i-3:i+1]`; if all four strictly above `+1s` or all strictly
below `-1s`, extend with the window's four indices. -/
def rule41_raw (series : Series) (mean std_dev : ℚ) : List Nat :=
  (List.range' 3 (series.length - 3)).flatMap fun i =>
    if (∀ j ∈ List.range' (i-3) 4, sVal series j > mean + std_dev)
       ∨ (∀ j ∈ List.range' (i-3) 4, sVal series j < mean - std_dev)
    then List.range' (i-3) 4 else []

/-- Lines 114-117: for `i in range(9, len(series))`, window
`series.iloc[i-9:i+1]`; if all ten strictly above the mean or all strictly
below it, extend with the window's ten indices. -/
def rule10_raw (series : Series) (mean std_dev : ℚ) : List Nat :=
  (List.range' 9 (series.length - 9)).flatMap fun i =>
    if (∀ j ∈ List.range' (i-9) 10, sVal series j > mean)
       ∨ (∀ j ∈ List.range' (i-9) 10, sVal series j < mean)
    then List.range' (i-9) 10 else []

/-- Lines 120-127: for `i in range(6, len(series))`, window
`series.iloc[i-6:i+1]`; two independent checks (strictly increasing across
the window, strictly decreasing across the window), each extending with the
window's seven indices when it holds. -/
def rule7T_raw (series : Series) (mean std_dev : ℚ) : List Nat :=
  (List.range' 6 (series.length - 6)).flatMap fun i =>
    (if ∀ j ∈ List.range' 1 6, sVal series (i-6+j) > sVal series (i-6+j-1)
     then List.range' (i-6) 7 else [])
    ++ (if ∀ j ∈ List.range' 1 6, sVal series (i-6+j) < sVal series (i-6+j-1)
        then List.range' (i-6) 7 else [])

/-- Lines 129-131: `violations[rule] = sorted(list(set(violations[rule])))` —
the sorted list of the distinct collected indices. -/
def dedupSort (l : List Nat) : List Nat :=
  List.insertionSort (· ≤ ·) l.dedup

/-- A `defaultdict(list)` entry created by `extend`: present only when the
collected list is nonempty (the `extend` calls happen only inside the rule's
firing condition and always append a nonempty chunk). -/
def entryIf (name : String) (l : List Nat) : List (String × List Nat) :=
  if l = [] then [] else [(name, l)]

/-- Lines 81-133: `apply_westgard_rules(series, mean, std_dev)`.  Returns
the violations dictionary in insertion order: `'1-3s'` is always assigned
(line 94); each other key exists exactly when its rule fired at least once;
every list has been deduplicated and sorted ascending (lines 129-131). -/
def apply_westgard_rules (series : Series) (mean std_dev : ℚ) :
    List (String × List Nat) :=
  [("1-3s", dedupSort (rule13_raw series mean std_dev))]
  ++ entryIf "2-2s" (dedupSort (rule22_raw series mean std_dev))
  ++ entryIf "R-4s" (dedupSort (ruleR4_raw series mean std_dev))
  ++ entryIf "4-1s" (dedupSort (rule41_raw series mean std_dev))
  ++ entryIf "10-x" (dedupSort (rule10_raw series mean std_dev))
  ++ entryIf "7-T" (dedupSort (rule7T_raw series mean std_dev))

/-- Dictionary lookup `violations.get(rule, [])` (line 168): the list bound
to `rule`, or `[]` when the key is absent. -/
def vget (violations : List (String × List Nat)) (rule : String) : List Nat :=
  match violations.find? (fun p => p.1 == rule) with
  | some p => p.2
  | none => []

/-- Lines 167-175 of `create_qc_chart`: the caller-side restriction of an
evaluation to the requested rule subset — for each requested rule, the
highlighted points are `violations.get(rule, [])`; rules outside the
requested subset contribute nothing. -/
def restrictRules (violations : List (String × List Nat))
    (applied_rules : List String) : List (String × List Nat) :=
  applied_rules.map fun rule => (rule, vget violations rule)

/-- Lines 267-274 of `main`: the dispersion reaching the guard is either a
number or missing (`pd.isna`), embedded as `Option ℚ`.  If it is missing or
zero, the app warns ("Standard deviation is zero or missing. Cannot
calculate control limits or apply Westgard rules.") and no evaluation runs
(`none`); otherwise the engine is invoked. -/
def main_eval (series : Series) (mean : ℚ) (std_dev : Option ℚ) :
    Option (List (String × List Nat)) :=
  match std_dev with
  | none => none
  | some s => if s = 0 then none else some (apply_westgard_rules series mean s)

/-! ### Helper lemmas about `dedupSort`, `vget` and the rule lists -/

theorem mem_dedupSort {l : List Nat} {i : Nat} : i ∈ dedupSort l ↔ i ∈ l :=
  (List.perm_insertionSort _ _).mem_iff.trans List.mem_dedup

theorem dedupSort_nodup (l : List Nat) : (dedupSort l).Nodup :=
  (List.perm_insertionSort _ _).nodup_iff.mpr l.nodup_dedup

theorem dedupSort_sorted (l : List Nat) : (dedupSort l).Sorted (· ≤ ·) :=
  List.sorted_insertionSort _ _

theorem dedupSort_eq_nil_iff {l : List Nat} : dedupSort l = [] ↔ l = [] := by
  constructor
  · intro h
    cases hl : l with
    | nil => rfl
    | cons a t =>
        have ha : a ∈ dedupSort l := mem_dedupSort.mpr (by simp [hl])
        rw [h] at ha
        simp at ha
  · intro h
    subst h
    rfl

theorem vget_cons_self (name : String) (l : List Nat)
    (rest : List (String × List Nat)) : vget ((name, l) :: rest) name = l := by
  simp [vget]

theorem vget_cons_ne (name : String) (l : List Nat)
    (rest : List (String × List Nat)) (r : String) (h : name ≠ r) :
    vget ((name, l) :: rest) r = vget rest r := by
  have hb : (name == r) = false := beq_eq_false_iff_ne.mpr h
  simp [vget, hb]

theorem vget_entryIf_ne (name : String) (l : List Nat) (r : String)
    (h : name ≠ r) : vget (entryIf name l) r = [] := by
  unfold entryIf
  split
  · rfl
  · rw [vget_cons_ne name l [] r h]
    rfl

theorem vget_entryIf_self (name : String) (l : List Nat) :
    vget (entryIf name l) name = l := by
  unfold entryIf
  split
  · simp [vget, *]
  · exact vget_cons_self name l []

theorem vget_entryIf_append_ne (name : String) (l : List Nat)
    (rest : List (String × List Nat)) (r : String) (h : name ≠ r) :
    vget (entryIf name l ++ rest) r = vget rest r := by
  unfold entryIf
  split
  · simp
  · rw [List.singleton_append, vget_cons_ne name l rest r h]

theorem vget_entryIf_append_self (name : String) (l : List Nat)
    (rest : List (String × List Nat)) (hrest : vget rest name = []) :
    vget (entryIf name l ++ rest) name = l := by
  unfold entryIf
  split
  · next hl => rw [List.nil_append, hrest, hl]
  · rw [List.singleton_append]
    exact vget_cons_self name l rest

theorem mem_entryIf {name : String} {l : List Nat} {p : String × List Nat}
    (h : p ∈ entryIf name l) : p = (name, l) ∧ l ≠ [] := by
  unfold entryIf at h
  split at h
  · simp at h
  · next hne => exact ⟨by simpa using h, hne⟩

/-! ### Looking up each rule key in the returned dictionary -/

theorem vget_apply_13 (series : Series) (mean std_dev : ℚ) :
    vget (apply_westgard_rules series mean std_dev) "1-3s" =
      dedupSort (rule13_raw series mean std_dev) := by
  unfold apply_westgard_rules
  simp only [List.append_assoc, List.cons_append, List.nil_append, List.singleton_append]
  exact vget_cons_self _ _ _

theorem vget_apply_22 (series : Series) (mean std_dev : ℚ) :
    vget (apply_westgard_rules series mean std_dev) "2-2s" =
      dedupSort (rule22_raw series mean std_dev) := by
  unfold apply_westgard_rules
  simp only [List.append_assoc, List.cons_append, List.nil_append, List.singleton_append]
  rw [vget_cons_ne "1-3s" _ _ "2-2s" (by decide)]
  refine vget_entryIf_append_self _ _ _ ?_
  rw [vget_entryIf_append_ne "R-4s" _ _ "2-2s" (by decide),
      vget_entryIf_append_ne "4-1s" _ _ "2-2s" (by decide),
      vget_entryIf_append_ne "10-x" _ _ "2-2s" (by decide)]
  exact vget_entryIf_ne "7-T" _ "2-2s" (by decide)

theorem vget_apply_R4 (series : Series) (mean std_dev : ℚ) :
    vget (apply_westgard_rules series mean std_dev) "R-4s" =
      dedupSort (ruleR4_raw series mean std_dev) := by
  unfold apply_westgard_rules
  simp only [List.append_assoc, List.cons_append, List.nil_append, List.singleton_append]
  rw [vget_cons_ne "1-3s" _ _ "R-4s" (by decide),
      vget_entryIf_append_ne "2-2s" _ _ "R-4s" (by decide)]
  refine vget_entryIf_append_self _ _ _ ?_
  rw [vget_entryIf_append_ne "4-1s" _ _ "R-4s" (by decide),
      vget_entryIf_append_ne "10-x" _ _ "R-4s" (by decide)]
  exact vget_entryIf_ne "7-T" _ "R-4s" (by decide)

theorem vget_apply_41 (series : Series) (mean std_dev : ℚ) :
    vget (apply_westgard_rules series mean std_dev) "4-1s" =
      dedupSort (rule41_raw series mean std_dev) := by
  unfold apply_westgard_rules
  simp only [List.append_assoc, List.cons_append, List.nil_append, List.singleton_append]
  rw [vget_cons_ne "1-3s" _ _ "4-1s" (by decide),
      vget_entryIf_append_ne "2-2s" _ _ "4-1s" (by decide),
      vget_entryIf_append_ne "R-4s" _ _ "4-1s" (by decide)]
  refine vget_entryIf_append_self _ _ _ ?_
  rw [vget_entryIf_append_ne "10-x" _ _ "4-1s" (by decide)]
  exact vget_entryIf_ne "7-T" _ "4-1s" (by decide)

theorem vget_apply_10x (series : Series) (mean std_dev : ℚ) :
    vget (apply_westgard_rules series mean std_dev) "10-x" =
      dedupSort (rule10_raw series mean std_dev) := by
  unfold apply_westgard_rules
  simp only [List.append_assoc, List.cons_append, List.nil_append, List.singleton_append]
  rw [vget_cons_ne "1-3s" _ _ "10-x" (by decide),
      vget_entryIf_append_ne "2-2s" _ _ "10-x" (by decide),
      vget_entryIf_append_ne "R-4s" _ _ "10-x" (by decide),
      vget_entryIf_append_ne "4-1s" _ _ "10-x" (by decide)]
  exact vget_entryIf_append_self _ _ _ (vget_entryIf_ne "7-T" _ "10-x" (by decide))

theorem vget_apply_7T (series : Series) (mean std_dev : ℚ) :
    vget (apply_westgard_rules series mean std_dev) "7-T" =
      dedupSort (rule7T_raw series mean std_dev) := by
  unfold apply_westgard_rules
  simp only [List.append_assoc, List.cons_append, List.nil_append, List.singleton_append]
  rw [vget_cons_ne "1-3s" _ _ "7-T" (by decide),
      vget_entryIf_append_ne "2-2s" _ _ "7-T" (by decide),
      vget_entryIf_append_ne "R-4s" _ _ "7-T" (by decide),
      vget_entryIf_append_ne "4-1s" _ _ "7-T" (by decide),
      vget_entryIf_append_ne "10-x" _ _ "7-T" (by decide)]
  exact vget_entryIf_self _ _

/-- A rule key other than the six fixed names is never present. -/
theorem vget_apply_other (series : Series) (mean std_dev : ℚ) (r : String)
    (h13 : r ≠ "1-3s") (h22 : r ≠ "2-2s") (hR4 : r ≠ "R-4s")
    (h41 : r ≠ "4-1s") (h10 : r ≠ "10-x") (h7T : r ≠ "7-T") :
    vget (apply_westgard_rules series mean std_dev) r = [] := by
  unfold apply_westgard_rules
  simp only [List.append_assoc, List.cons_append, List.nil_append, List.singleton_append]
  rw [vget_cons_ne _ _ _ _ (Ne.symm h13),
      vget_entryIf_append_ne _ _ _ _ (Ne.symm h22),
      vget_entryIf_append_ne _ _ _ _ (Ne.symm hR4),
      vget_entryIf_append_ne _ _ _ _ (Ne.symm h41),
      vget_entryIf_append_ne _ _ _ _ (Ne.symm h10)]
  exact vget_entryIf_ne _ _ _ (Ne.symm h7T)

/-! ### Membership characterizations of the raw (pre-dedup) rule lists -/

theorem mem_rule13_raw {series : Series} {mean std_dev : ℚ} {i : Nat} :
    i ∈ rule13_raw series mean std_dev ↔
      i < series.length ∧
        (sVal series i > mean + 3 * std_dev ∨ sVal series i < mean - 3 * std_dev) := by
  simp [rule13_raw, List.mem_filter, List.mem_range]

theorem mem_rule22_raw {series : Series} {mean std_dev : ℚ} {i : Nat} :
    i ∈ rule22_raw series mean std_dev ↔
      ∃ k, 1 ≤ k ∧ k < series.length ∧
        ((sVal series k > mean + 2 * std_dev ∧ sVal series (k-1) > mean + 2 * std_dev)
          ∨ (sVal series k < mean - 2 * std_dev ∧ sVal series (k-1) < mean - 2 * std_dev))
        ∧ (i = k - 1 ∨ i = k) := by
  simp only [rule22_raw, List.mem_flatMap, List.mem_range'_1]
  constructor
  · rintro ⟨k, ⟨hk1, hk2⟩, hmem⟩
    split at hmem
    · next hcond =>
        refine ⟨k, hk1, by omega, hcond, ?_⟩
        simpa using hmem
    · simp at hmem
  · rintro ⟨k, hk1, hk2, hcond, hi⟩
    refine ⟨k, ⟨hk1, by omega⟩, ?_⟩
    rw [if_pos hcond]
    rcases hi with h | h <;> simp [h]

theorem mem_ruleR4_raw {series : Series} {mean std_dev : ℚ} {i : Nat} :
    i ∈ ruleR4_raw series mean std_dev ↔
      ∃ k, 1 ≤ k ∧ k < series.length ∧
        |sVal series k - sVal series (k-1)| > 4 * std_dev ∧ (i = k - 1 ∨ i = k) := by
  simp only [ruleR4_raw, List.mem_flatMap, List.mem_range'_1]
  constructor
  · rintro ⟨k, ⟨hk1, hk2⟩, hmem⟩
    split at hmem
    · next hcond =>
        refine ⟨k, hk1, by omega, hcond, ?_⟩
        simpa using hmem
    · simp at hmem
  · rintro ⟨k, hk1, hk2, hcond, hi⟩
    refine ⟨k, ⟨hk1, by omega⟩, ?_⟩
    rw [if_pos hcond]
    rcases hi with h | h <;> simp [h]

theorem mem_rule41_raw {series : Series} {mean std_dev : ℚ} {i : Nat} :
    i ∈ rule41_raw series mean std_dev ↔
      ∃ k, 3 ≤ k ∧ k < series.length ∧
        ((∀ j, k - 3 ≤ j → j ≤ k → sVal series j > mean + std_dev)
          ∨ (∀ j, k - 3 ≤ j → j ≤ k → sVal series j < mean - std_dev))
        ∧ k - 3 ≤ i ∧ i ≤ k := by
  simp only [rule41_raw, List.mem_flatMap, List.mem_range'_1]
  constructor
  · rintro ⟨k, ⟨hk1, hk2⟩, hmem⟩
    split at hmem
    · next hcond =>
        have hw : k - 3 ≤ i ∧ i ≤ k := by
          have := List.mem_range'_1.mp hmem
          omega
        refine ⟨k, hk1, by omega, ?_, hw⟩
        rcases hcond with hup | hdn
        · exact Or.inl fun j hj1 hj2 => hup j (List.mem_range'_1.mpr (by omega))
        · exact Or.inr fun j hj1 hj2 => hdn j (List.mem_range'_1.mpr (by omega))
    · simp at hmem
  · rintro ⟨k, hk1, hk2, hcond, hi1, hi2⟩
    refine ⟨k, ⟨hk1, by omega⟩, ?_⟩
    have hcond' : (∀ j ∈ List.range' (k-3) 4, sVal series j > mean + std_dev)
        ∨ (∀ j ∈ List.range' (k-3) 4, sVal series j < mean - std_dev) := by
      rcases hcond with hup | hdn
      · exact Or.inl fun j hj => hup j (by have := List.mem_range'_1.mp hj; omega)
          (by have := List.mem_range'_1.mp hj; omega)
      · exact Or.inr fun j hj => hdn j (by have := List.mem_range'_1.mp hj; omega)
          (by have := List.mem_range'_1.mp hj; omega)
    rw [if_pos hcond']
    exact List.mem_range'_1.mpr (by omega)

theorem mem_rule10_raw {series : Series} {mean std_dev : ℚ} {i : Nat} :
    i ∈ rule10_raw series mean std_dev ↔
      ∃ k, 9 ≤ k ∧ k < series.length ∧
        ((∀ j, k - 9 ≤ j → j ≤ k → sVal series j > mean)
          ∨ (∀ j, k - 9 ≤ j → j ≤ k → sVal series j < mean))
        ∧ k - 9 ≤ i ∧ i ≤ k := by
  simp only [rule10_raw, List.mem_flatMap, List.mem_range'_1]
  constructor
  · rintro ⟨k, ⟨hk1, hk2⟩, hmem⟩
    split at hmem
    · next hcond =>
        have hw : k - 9 ≤ i ∧ i ≤ k := by
          have := List.mem_range'_1.mp hmem
          omega
        refine ⟨k, hk1, by omega, ?_, hw⟩
        rcases hcond with hup | hdn
        · exact Or.inl fun j hj1 hj2 => hup j (List.mem_range'_1.mpr (by omega))
        · exact Or.inr fun j hj1 hj2 => hdn j (List.mem_range'_1.mpr (by omega))
    · simp at hmem
  · rintro ⟨k, hk1, hk2, hcond, hi1, hi2⟩
    refine ⟨k, ⟨hk1, by omega⟩, ?_⟩
    have hcond' : (∀ j ∈ List.range' (k-9) 10, sVal series j > mean)
        ∨ (∀ j ∈ List.range' (k-9) 10, sVal series j < mean) := by
      rcases hcond with hup | hdn
      · exact Or.inl fun j hj => hup j (by have := List.mem_range'_1.mp hj; omega)
          (by have := List.mem_range'_1.mp hj; omega)
      · exact Or.inr fun j hj => hdn j (by have := List.mem_range'_1.mp hj; omega)
          (by have := List.mem_range'_1.mp hj; omega)
    rw [if_pos hcond']
    exact List.mem_range'_1.mpr (by omega)

theorem mem_rule7T_raw {series : Series} {mean std_dev : ℚ} {i : Nat} :
    i ∈ rule7T_raw series mean std_dev ↔
      ∃ k, 6 ≤ k ∧ k < series.length ∧
        ((∀ j, 1 ≤ j → j ≤ 6 → sVal series (k-6+j) > sVal series (k-6+j-1))
          ∨ (∀ j, 1 ≤ j → j ≤ 6 → sVal series (k-6+j) < sVal series (k-6+j-1)))
        ∧ k - 6 ≤ i ∧ i ≤ k := by
  simp only [rule7T_raw, List.mem_flatMap, List.mem_range'_1, List.mem_append]
  constructor
  · rintro ⟨k, ⟨hk1, hk2⟩, hmem | hmem⟩
    · split at hmem
      · next hcond =>
          have hw : k - 6 ≤ i ∧ i ≤ k := by
            have := List.mem_range'_1.mp hmem
            omega
          refine ⟨k, hk1, by omega, ?_, hw⟩
          exact Or.inl fun j hj1 hj2 => hcond j (List.mem_range'_1.mpr (by omega))
      · simp at hmem
    · split at hmem
      · next hcond =>
          have hw : k - 6 ≤ i ∧ i ≤ k := by
            have := List.mem_range'_1.mp hmem
            omega
          refine ⟨k, hk1, by omega, ?_, hw⟩
          exact Or.inr fun j hj1 hj2 => hcond j (List.mem_range'_1.mpr (by omega))
      · simp at hmem
  · rintro ⟨k, hk1, hk2, hcond, hi1, hi2⟩
    refine ⟨k, ⟨hk1, by omega⟩, ?_⟩
    rcases hcond with hup | hdn
    · refine Or.inl ?_
      have hcond' : ∀ j ∈ List.range' 1 6,
          sVal series (k-6+j) > sVal series (k-6+j-1) := fun j hj =>
        hup j (by have := List.mem_range'_1.mp hj; omega)
          (by have := List.mem_range'_1.mp hj; omega)
      rw [if_pos hcond']
      exact List.mem_range'_1.mpr (by omega)
    · refine Or.inr ?_
      have hcond' : ∀ j ∈ List.range' 1 6,
          sVal series (k-6+j) < sVal series (k-6+j-1) := fun j hj =>
        hdn j (by have := List.mem_range'_1.mp hj; omega)
          (by have := List.mem_range'_1.mp hj; omega)
      rw [if_pos hcond']
      exact List.mem_range'_1.mpr (by omega)

/-! ### Rule-subset restriction and structure of the returned dictionary -/

theorem restrict_keys (v : List (String × List Nat)) (rules : List String) :
    (restrictRules v rules).map Prod.fst = rules := by
  simp only [restrictRules, List.map_map]
  exact List.map_id rules

theorem vget_restrict_of_mem (v : List (String × List Nat))
    (rules : List String) (r : String) (h : r ∈ rules) :
    vget (restrictRules v rules) r = vget v r := by
  induction rules with
  | nil => cases h
  | cons a tl ih =>
      by_cases ha : a = r
      · subst ha
        exact vget_cons_self a (vget v a) (restrictRules v tl)
      · rcases List.mem_cons.mp h with h1 | h2
        · exact absurd h1.symm ha
        · rw [show restrictRules v (a :: tl)
                = (a, vget v a) :: restrictRules v tl from rfl,
              vget_cons_ne a (vget v a) _ r ha]
          exact ih h2

theorem vget_restrict_of_not_mem (v : List (String × List Nat))
    (rules : List String) (r : String) (h : r ∉ rules) :
    vget (restrictRules v rules) r = [] := by
  induction rules with
  | nil => rfl
  | cons a tl ih =>
      have ha : a ≠ r := fun e => h (e ▸ List.mem_cons_self a tl)
      rw [show restrictRules v (a :: tl)
            = (a, vget v a) :: restrictRules v tl from rfl,
          vget_cons_ne a (vget v a) _ r ha]
      exact ih fun hm => h (List.mem_cons_of_mem _ hm)

theorem mem_apply_cases {series : Series} {mean std_dev : ℚ}
    {p : String × List Nat} (h : p ∈ apply_westgard_rules series mean std_dev) :
    p.2 = dedupSort (rule13_raw series mean std_dev) ∨
    p.2 = dedupSort (rule22_raw series mean std_dev) ∨
    p.2 = dedupSort (ruleR4_raw series mean std_dev) ∨
    p.2 = dedupSort (rule41_raw series mean std_dev) ∨
    p.2 = dedupSort (rule10_raw series mean std_dev) ∨
    p.2 = dedupSort (rule7T_raw series mean std_dev) := by
  unfold apply_westgard_rules at h
  simp only [List.mem_append, List.mem_singleton] at h
  rcases h with ((((h | h) | h) | h) | h) | h
  · exact Or.inl (by rw [h])
  · exact Or.inr (Or.inl (congrArg Prod.snd (mem_entryIf h).1))
  · exact Or.inr (Or.inr (Or.inl (congrArg Prod.snd (mem_entryIf h).1)))
  · exact Or.inr (Or.inr (Or.inr (Or.inl (congrArg Prod.snd (mem_entryIf h).1))))
  · exact Or.inr (Or.inr (Or.inr (Or.inr (Or.inl
      (congrArg Prod.snd (mem_entryIf h).1)))))
  · exact Or.inr (Or.inr (Or.inr (Or.inr (Or.inr
      (congrArg Prod.snd (mem_entryIf h).1)))))

/-! ### Every collected index is a valid series position -/

theorem rule13_raw_lt {series : Series} {mean std_dev : ℚ} :
    ∀ i ∈ rule13_raw series mean std_dev, i < series.length :=
  fun _ hi => (mem_rule13_raw.mp hi).1

theorem rule22_raw_lt {series : Series} {mean std_dev : ℚ} :
    ∀ i ∈ rule22_raw series mean std_dev, i < series.length := by
  intro i hi
  rcases mem_rule22_raw.mp hi with ⟨k, h1, h2, _, h4⟩
  omega

theorem ruleR4_raw_lt {series : Series} {mean std_dev : ℚ} :
    ∀ i ∈ ruleR4_raw series mean std_dev, i < series.length := by
  intro i hi
  rcases mem_ruleR4_raw.mp hi with ⟨k, h1, h2, _, h4⟩
  omega

theorem rule41_raw_lt {series : Series} {mean std_dev : ℚ} :
    ∀ i ∈ rule41_raw series mean std_dev, i < series.length := by
  intro i hi
  rcases mem_rule41_raw.mp hi with ⟨k, h1, h2, _, _, h5⟩
  omega

theorem rule10_raw_lt {series : Series} {mean std_dev : ℚ} :
    ∀ i ∈ rule10_raw series mean std_dev, i < series.length := by
  intro i hi
  rcases mem_rule10_raw.mp hi with ⟨k, h1, h2, _, _, h5⟩
  omega

theorem rule7T_raw_lt {series : Series} {mean std_dev : ℚ} :
    ∀ i ∈ rule7T_raw series mean std_dev, i < series.length := by
  intro i hi
  rcases mem_rule7T_raw.mp hi with ⟨k, h1, h2, _, _, h5⟩
  omega

/-! ### Short and empty series -/

theorem apply_westgard_rules_nil (mean std_dev : ℚ) :
    apply_westgard_rules [] mean std_dev = [("1-3s", [])] := rfl

theorem vget_singleton_nil (r : String) :
    vget [("1-3s", ([] : List Nat))] r = [] := by
  by_cases h : "1-3s" = r
  · subst h
    exact vget_cons_self "1-3s" [] []
  · rw [vget_cons_ne "1-3s" [] [] r h]
    rfl

theorem rule13_raw_short {series : Series} {mean std_dev : ℚ}
    (h : series.length < 1) : rule13_raw series mean std_dev = [] := by
  unfold rule13_raw
  have e : series.length = 0 := by omega
  rw [e]
  rfl

theorem rule22_raw_short {series : Series} {mean std_dev : ℚ}
    (h : series.length < 2) : rule22_raw series mean std_dev = [] := by
  unfold rule22_raw
  have e : series.length - 1 = 0 := by omega
  rw [e]
  rfl

theorem ruleR4_raw_short {series : Series} {mean std_dev : ℚ}
    (h : series.length < 2) : ruleR4_raw series mean std_dev = [] := by
  unfold ruleR4_raw
  have e : series.length - 1 = 0 := by omega
  rw [e]
  rfl

theorem rule41_raw_short {series : Series} {mean std_dev : ℚ}
    (h : series.length < 4) : rule41_raw series mean std_dev = [] := by
  unfold rule41_raw
  have e : series.length - 3 = 0 := by omega
  rw [e]
  rfl

theorem rule10_raw_short {series : Series} {mean std_dev : ℚ}
    (h : series.length < 10) : rule10_raw series mean std_dev = [] := by
  unfold rule10_raw
  have e : series.length - 9 = 0 := by omega
  rw [e]
  rfl

theorem rule7T_raw_short {series : Series} {mean std_dev : ℚ}
    (h : series.length < 7) : rule7T_raw series mean std_dev = [] := by
  unfold rule7T_raw
  have e : series.length - 6 = 0 := by omega
  rw [e]
  rfl

/-!
### Claim theorems

The `Rat` field operations are `@[irreducible]` in the ambient library; the
concrete evaluations below unfold them, so they are made semireducible for
the rest of this namespace.
-/

attribute [local semireducible] Rat.add Rat.sub Rat.mul

/-- C1: for every series and limits and every requested subset of rule
identifiers, the restriction performed by the chart layer
(`violations.get(rule, [])` per requested rule, lines 167-168) yields a
mapping whose keys are exactly the requested rules, each bound to the same
index list the full evaluation produces for that rule, and reports no
violations for any rule outside the requested subset. -/
theorem c1_subset :
    ∀ (series : Series) (mean std_dev : ℚ) (rules : List String),
      ((restrictRules (apply_westgard_rules series mean std_dev) rules).map
          Prod.fst = rules)
      ∧ (∀ r, r ∈ rules →
          vget (restrictRules (apply_westgard_rules series mean std_dev) rules) r
            = vget (apply_westgard_rules series mean std_dev) r)
      ∧ (∀ r, r ∉ rules →
          vget (restrictRules (apply_westgard_rules series mean std_dev) rules) r
            = []) :=
  fun series mean std_dev rules =>
    ⟨restrict_keys (apply_westgard_rules series mean std_dev) rules,
     fun r hr => vget_restrict_of_mem (apply_westgard_rules series mean std_dev)
       rules r hr,
     fun r hr => vget_restrict_of_not_mem
       (apply_westgard_rules series mean std_dev) rules r hr⟩

/-- Witness for C1 at the spec's example subset `{1-3s, 10-x}`. -/
theorem c1_subset_witness :
    vget (restrictRules (apply_westgard_rules [0,0,0,0,100] 0 1)
        ["1-3s", "10-x"]) "1-3s"
      = vget (apply_westgard_rules [0,0,0,0,100] 0 1) "1-3s"
    ∧ vget (restrictRules (apply_westgard_rules [0,0,0,0,100] 0 1)
        ["1-3s", "10-x"]) "R-4s" = [] :=
  ⟨(c1_subset [0,0,0,0,100] 0 1 ["1-3s", "10-x"]).2.1 "1-3s" (by decide),
   (c1_subset [0,0,0,0,100] 0 1 ["1-3s", "10-x"]).2.2 "R-4s" (by decide)⟩

/-- C2: when the dispersion is zero or missing, the `main` guard
(lines 267-268) refuses to evaluate: no violation set, partial or
otherwise, is ever produced, and any produced violation set comes from a
nonzero dispersion.  (The guard and the engine are total functions, so no
crash is possible.) -/
theorem c2_limits_guard :
    ∀ (series : Series) (mean : ℚ),
      main_eval series mean none = none
      ∧ main_eval series mean (some 0) = none
      ∧ ∀ d, main_eval series mean d ≠ none →
          ∃ s, d = some s ∧ s ≠ 0
            ∧ main_eval series mean d
                = some (apply_westgard_rules series mean s) := by
  intro series mean
  refine ⟨rfl, by simp [main_eval], ?_⟩
  intro d hd
  match d with
  | none => exact absurd rfl hd
  | some s =>
      by_cases hs : s = 0
      · subst hs
        simp [main_eval] at hd
      · exact ⟨s, rfl, hs, by simp [main_eval, hs]⟩

/-- Witness for C2: a nonzero dispersion does produce an evaluation. -/
theorem c2_limits_guard_witness :
    ∃ s, (some (1 : ℚ)) = some s ∧ s ≠ 0
      ∧ main_eval [0] 0 (some 1) = some (apply_westgard_rules [0] 0 s) :=
  (c2_limits_guard [0] 0).2.2 (some 1) (by decide)

/-- C3: for dispersion `> 0`, every rule's reported list in the returned
dictionary is ascending (sorted under `≤`), duplicate-free, and contains
only valid positions of the original series. -/
theorem c3_invariants :
    ∀ (series : Series) (mean std_dev : ℚ), 0 < std_dev →
      ∀ r l, (r, l) ∈ apply_westgard_rules series mean std_dev →
        l.Sorted (· ≤ ·) ∧ l.Nodup ∧ ∀ i ∈ l, i < series.length := by
  intro series mean std_dev _ r l hmem
  have h2 := mem_apply_cases (p := (r, l)) hmem
  simp only at h2
  rcases h2 with h | h | h | h | h | h <;> subst h <;>
    refine ⟨dedupSort_sorted _, dedupSort_nodup _, ?_⟩
  · exact fun i hi => rule13_raw_lt i (mem_dedupSort.mp hi)
  · exact fun i hi => rule22_raw_lt i (mem_dedupSort.mp hi)
  · exact fun i hi => ruleR4_raw_lt i (mem_dedupSort.mp hi)
  · exact fun i hi => rule41_raw_lt i (mem_dedupSort.mp hi)
  · exact fun i hi => rule10_raw_lt i (mem_dedupSort.mp hi)
  · exact fun i hi => rule7T_raw_lt i (mem_dedupSort.mp hi)

/-- Witness for C3 at the `1-3s` entry of a concrete evaluation. -/
theorem c3_invariants_witness :
    ([4] : List Nat).Sorted (· ≤ ·) ∧ ([4] : List Nat).Nodup
      ∧ ∀ i ∈ ([4] : List Nat), i < ([0,0,0,0,100] : Series).length :=
  c3_invariants [0,0,0,0,100] 0 1 (by decide) "1-3s" [4] (by decide)

/-- C4 counterexample: on `[0,0,0,0,100]` with center `0` and dispersion
`1`, rule `R-4s` also fires (the jump from `0` to `100` exceeds
`4·dispersion`), so it is not true that no rule besides `1-3s` fires. -/
theorem c4_rule13_counterexample :
    vget (apply_westgard_rules [0,0,0,0,100] 0 1) "R-4s" = [3, 4]
    ∧ ¬ apply_westgard_rules [0,0,0,0,100] 0 1 = [("1-3s", [4])] := by
  constructor
  · decide
  · decide

/-- C4 (amended): rule `1-3s` reports exactly the points strictly outside
`center ± 3·dispersion` (a value exactly at a threshold is not a
violation); for `[0,0,0,0,100]` with center `0` and dispersion `1`, `1-3s`
reports index `4` only, and the only other rule that fires is `R-4s`,
reporting indices `{3,4}`. -/
theorem c4_rule13 :
    (∀ (series : Series) (mean std_dev : ℚ) (i : Nat),
        i ∈ vget (apply_westgard_rules series mean std_dev) "1-3s" ↔
          i < series.length ∧
            (sVal series i > mean + 3 * std_dev
              ∨ sVal series i < mean - 3 * std_dev))
    ∧ apply_westgard_rules [0,0,0,0,100] 0 1
        = [("1-3s", [4]), ("R-4s", [3, 4])] := by
  refine ⟨?_, by decide⟩
  intro series mean std_dev i
  rw [vget_apply_13]
  exact mem_dedupSort.trans mem_rule13_raw

/-- Witness for C4 (amended): the characterization applied at the spec's
example point. -/
theorem c4_rule13_witness :
    4 ∈ vget (apply_westgard_rules [0,0,0,0,100] 0 1) "1-3s" :=
  (c4_rule13.1 [0,0,0,0,100] 0 1 4).mpr (by decide)

/-- C5: rule `R-4s` reports both points of every consecutive pair whose
absolute difference strictly exceeds `4·dispersion`; `[0,5]` with center
`0`, dispersion `1` reports `{0,1}`, and `[0,4]` (difference exactly `4`)
does not trigger `R-4s`. -/
theorem c5_ruleR4 :
    (∀ (series : Series) (mean std_dev : ℚ) (k : Nat),
        1 ≤ k → k < series.length →
        |sVal series k - sVal series (k-1)| > 4 * std_dev →
        k - 1 ∈ vget (apply_westgard_rules series mean std_dev) "R-4s"
        ∧ k ∈ vget (apply_westgard_rules series mean std_dev) "R-4s")
    ∧ vget (apply_westgard_rules [0,5] 0 1) "R-4s" = [0, 1]
    ∧ vget (apply_westgard_rules [0,4] 0 1) "R-4s" = [] := by
  refine ⟨?_, by decide, by decide⟩
  intro series mean std_dev k h1 h2 h3
  constructor <;>
  · rw [vget_apply_R4]
    exact mem_dedupSort.mpr (mem_ruleR4_raw.mpr ⟨k, h1, h2, h3, by omega⟩)

/-- Witness for C5 at the pair `[0,5]`. -/
theorem c5_ruleR4_witness :
    0 ∈ vget (apply_westgard_rules [0,5] 0 1) "R-4s"
    ∧ 1 ∈ vget (apply_westgard_rules [0,5] 0 1) "R-4s" :=
  c5_ruleR4.1 [0,5] 0 1 1 (by decide) (by decide) (by decide)

/-- C6: an index is reported by `10-x` exactly when it lies in some window
of ten consecutive points that are all strictly above the center or all
strictly below it; ten increasing values report all ten indices, a run of
only nine reports none, and (per the characterization) a window mixing
sides never triggers. -/
theorem c6_rule10x :
    (∀ (series : Series) (mean std_dev : ℚ) (i : Nat),
        i ∈ vget (apply_westgard_rules series mean std_dev) "10-x" ↔
          ∃ k, 9 ≤ k ∧ k < series.length ∧
            ((∀ j, k - 9 ≤ j → j ≤ k → sVal series j > mean)
              ∨ (∀ j, k - 9 ≤ j → j ≤ k → sVal series j < mean))
            ∧ k - 9 ≤ i ∧ i ≤ k)
    ∧ vget (apply_westgard_rules [1,2,3,4,5,6,7,8,9,10] 0 1) "10-x"
        = [0,1,2,3,4,5,6,7,8,9]
    ∧ vget (apply_westgard_rules [1,2,3,4,5,6,7,8,9] 0 1) "10-x" = [] := by
  refine ⟨?_, by decide, by decide⟩
  intro series mean std_dev i
  rw [vget_apply_10x]
  exact mem_dedupSort.trans mem_rule10_raw

/-- Witness for C6: the characterization applied at index `0` of the ten
increasing values. -/
theorem c6_rule10x_witness :
    0 ∈ vget (apply_westgard_rules [1,2,3,4,5,6,7,8,9,10] 0 1) "10-x" :=
  (c6_rule10x.1 [1,2,3,4,5,6,7,8,9,10] 0 1 0).mpr
    ⟨9, by decide, by decide,
     Or.inl (fun j _ hj2 => by interval_cases j <;> decide),
     by decide, by decide⟩

/-- C7: an index is reported by `7-T` exactly when it lies in some window
of seven consecutive points that is strictly increasing or strictly
decreasing (so a plateau inside a window prevents that window from
triggering); overlapping windows all contribute, so a strictly increasing
series of length `n ≥ 7` reports all `n` indices; concretely, seven
strictly increasing values report all seven indices and a plateau at the
end reports nothing. -/
theorem c7_rule7T :
    (∀ (series : Series) (mean std_dev : ℚ) (i : Nat),
        i ∈ vget (apply_westgard_rules series mean std_dev) "7-T" ↔
          ∃ k, 6 ≤ k ∧ k < series.length ∧
            ((∀ j, 1 ≤ j → j ≤ 6 →
                sVal series (k-6+j) > sVal series (k-6+j-1))
              ∨ (∀ j, 1 ≤ j → j ≤ 6 →
                sVal series (k-6+j) < sVal series (k-6+j-1)))
            ∧ k - 6 ≤ i ∧ i ≤ k)
    ∧ (∀ (series : Series) (mean std_dev : ℚ),
        7 ≤ series.length →
        (∀ j, j + 1 < series.length → sVal series j < sVal series (j+1)) →
        ∀ i, i < series.length →
          i ∈ vget (apply_westgard_rules series mean std_dev) "7-T")
    ∧ vget (apply_westgard_rules [1,2,3,4,5,6,7] 0 1) "7-T" = [0,1,2,3,4,5,6]
    ∧ vget (apply_westgard_rules [1,2,3,4,5,6,6] 0 1) "7-T" = [] := by
  have hiff : ∀ (series : Series) (mean std_dev : ℚ) (i : Nat),
      i ∈ vget (apply_westgard_rules series mean std_dev) "7-T" ↔
        ∃ k, 6 ≤ k ∧ k < series.length ∧
          ((∀ j, 1 ≤ j → j ≤ 6 →
              sVal series (k-6+j) > sVal series (k-6+j-1))
            ∨ (∀ j, 1 ≤ j → j ≤ 6 →
              sVal series (k-6+j) < sVal series (k-6+j-1)))
          ∧ k - 6 ≤ i ∧ i ≤ k := by
    intro series mean std_dev i
    rw [vget_apply_7T]
    exact mem_dedupSort.trans mem_rule7T_raw
  refine ⟨hiff, ?_, by decide, by decide⟩
  intro series mean std_dev hlen hmono i hi
  apply (hiff series mean std_dev i).mpr
  rcases Nat.le_total i 6 with hc | hc
  · refine ⟨6, Nat.le_refl 6, by omega, Or.inl ?_, by omega, hc⟩
    intro j hj1 hj2
    have h := hmono (6 - 6 + j - 1) (by omega)
    have e : (6 - 6 + j - 1) + 1 = 6 - 6 + j := by omega
    rw [e] at h
    exact h
  · refine ⟨i, hc, hi, Or.inl ?_, by omega, Nat.le_refl i⟩
    intro j hj1 hj2
    have h := hmono (i - 6 + j - 1) (by omega)
    have e : (i - 6 + j - 1) + 1 = i - 6 + j := by omega
    rw [e] at h
    exact h

/-- Witness for C7: the all-indices consequence on a strictly increasing
series of length 8, at index 7. -/
theorem c7_rule7T_witness :
    7 ∈ vget (apply_westgard_rules [1,2,3,4,5,6,7,8] 0 1) "7-T" :=
  c7_rule7T.2.1 [1,2,3,4,5,6,7,8] 0 1 (by decide)
    (fun j hj => by
      simp only [List.length_cons, List.length_nil] at hj
      have hj7 : j < 7 := by omega
      interval_cases j <;> decide) 7 (by decide)

/-- C8: for dispersion `> 0`, an empty series yields an empty violation
list for every rule key, and a series shorter than a rule's window yields
an empty list for that rule; both cases are ordinary return values of the
total function `apply_westgard_rules`, not errors. -/
theorem c8_short_series :
    (∀ (mean std_dev : ℚ), 0 < std_dev →
        ∀ r, vget (apply_westgard_rules [] mean std_dev) r = [])
    ∧ (∀ (series : Series) (mean std_dev : ℚ), 0 < std_dev →
        (series.length < 1 →
          vget (apply_westgard_rules series mean std_dev) "1-3s" = [])
        ∧ (series.length < 2 →
          vget (apply_westgard_rules series mean std_dev) "2-2s" = []
          ∧ vget (apply_westgard_rules series mean std_dev) "R-4s" = [])
        ∧ (series.length < 4 →
          vget (apply_westgard_rules series mean std_dev) "4-1s" = [])
        ∧ (series.length < 10 →
          vget (apply_westgard_rules series mean std_dev) "10-x" = [])
        ∧ (series.length < 7 →
          vget (apply_westgard_rules series mean std_dev) "7-T" = [])) := by
  constructor
  · intro mean std_dev _ r
    rw [apply_westgard_rules_nil]
    exact vget_singleton_nil r
  · intro series mean std_dev _
    refine ⟨?_, ?_, ?_, ?_, ?_⟩
    · intro h
      rw [vget_apply_13, rule13_raw_short h]
      rfl
    · intro h
      constructor
      · rw [vget_apply_22, rule22_raw_short h]
        rfl
      · rw [vget_apply_R4, ruleR4_raw_short h]
        rfl
    · intro h
      rw [vget_apply_41, rule41_raw_short h]
      rfl
    · intro h
      rw [vget_apply_10x, rule10_raw_short h]
      rfl
    · intro h
      rw [vget_apply_7T, rule7T_raw_short h]
      rfl

/-- Witness for C8: the empty series and a three-point series. -/
theorem c8_short_series_witness :
    vget (apply_westgard_rules [] 0 1) "7-T" = []
    ∧ vget (apply_westgard_rules [1,2,3] 0 1) "4-1s" = [] :=
  ⟨c8_short_series.1 0 1 (by decide) "7-T",
   (c8_short_series.2 [1,2,3] 0 1 (by decide)).2.2.1 (by decide)⟩

/-- C9: the evaluation is deterministic — it is embedded as a pure
function of `(series, mean, std_dev)` (the Python engine builds a fresh
local `defaultdict` and touches no global state), so identical inputs give
identical, order-stable results. -/
theorem c9_deterministic :
    ∀ (series : Series) (mean std_dev : ℚ),
      apply_westgard_rules series mean std_dev
        = apply_westgard_rules series mean std_dev :=
  fun _ _ _ => rfl

/-- C10: the returned mapping always contains the key `1-3s` (assigned
unconditionally at line 94, possibly to an empty list), while every other
key present in the mapping is bound to a nonempty violation list (the
other five keys are created only by `extend` inside a firing condition). -/
theorem c10_key_presence :
    ∀ (series : Series) (mean std_dev : ℚ),
      (∃ l, ("1-3s", l) ∈ apply_westgard_rules series mean std_dev)
      ∧ (∀ r l, (r, l) ∈ apply_westgard_rules series mean std_dev →
          r ≠ "1-3s" → l ≠ []) := by
  intro series mean std_dev
  constructor
  · exact ⟨dedupSort (rule13_raw series mean std_dev),
      by unfold apply_westgard_rules; simp⟩
  · intro r l hmem hr
    unfold apply_westgard_rules at hmem
    simp only [List.mem_append, List.mem_singleton] at hmem
    rcases hmem with ((((h | h) | h) | h) | h) | h
    · rw [Prod.mk.injEq] at h
      exact absurd h.1 hr
    all_goals
      rcases mem_entryIf h with ⟨he, hne⟩
      rw [Prod.mk.injEq] at he
      rw [he.2]
      exact hne

/-- Witness for C10: a concrete evaluation where `R-4s` fired. -/
theorem c10_key_presence_witness :
    (∃ l, ("1-3s", l) ∈ apply_westgard_rules [0,5] 0 1)
    ∧ ([0, 1] : List Nat) ≠ [] :=
  ⟨(c10_key_presence [0,5] 0 1).1,
   (c10_key_presence [0,5] 0 1).2 "R-4s" [0, 1] (by decide) (by decide)⟩

end QCApp
